import Mathlib

/-!
Verification of the distributed scheduler core (scheduler.py).

This file gives a shallow embedding, in Lean 4, of the parts of the
scheduler that the specification talks about: the transition table and
its compound-transition dispatcher, the replica bookkeeping
(add_replica / remove_replica / remove_all_replicas), valid_workers,
decide_worker (including the root-task heuristic and the module-level
decide_worker helper), check_idle_saturated, the task-erred stimulus,
the heartbeat interval, and the rebalance pairing algorithm
_rebalance_find_msgs.

Conventions of the embedding:
* Worker addresses, task keys, host names and resource names are
  modelled as natural numbers.
* Python floats are modelled as exact rationals; Python ints as ℤ/ℕ.
* Python dict/set mutation becomes explicit state passing.
* Python iteration order, where it matters (sorted containers,
  insertion-ordered dicts, heap pops), is modelled by explicit lists.
-/

namespace Sched

/-- Worker address (the scheduler keys workers by address string). -/
abbrev Addr := ℕ

/-- Task key. -/
abbrev Key := ℕ

/-- Host name. -/
abbrev Host := ℕ

/-- Resource name. -/
abbrev Res := ℕ

/-- The seven task states of the scheduler state machine. -/
inductive TState where
  | released
  | waiting
  | noWorker
  | processing
  | memory
  | erred
  | forgotten
deriving DecidableEq, Repr

instance : Fintype TState :=
  ⟨⟨{TState.released, TState.waiting, TState.noWorker, TState.processing,
     TState.memory, TState.erred, TState.forgotten}, by decide⟩, by
    intro x; cases x <;> decide⟩

/-! ## The transition table (SchedulerState.__init__, scheduler.py:2059-2075)

The table maps `(start, finish)` pairs to handler functions; here we only
record which pairs carry a handler. -/

/-- The `_transitions_table` of `SchedulerState.__init__`: `true` exactly for
the pairs that have a handler function. -/
def transitionsTable : TState → TState → Bool
  | TState.released, TState.waiting => true
  | TState.waiting, TState.released => true
  | TState.waiting, TState.processing => true
  | TState.waiting, TState.memory => true
  | TState.processing, TState.released => true
  | TState.processing, TState.memory => true
  | TState.processing, TState.erred => true
  | TState.noWorker, TState.released => true
  | TState.noWorker, TState.waiting => true
  | TState.noWorker, TState.memory => true
  | TState.released, TState.forgotten => true
  | TState.memory, TState.forgotten => true
  | TState.erred, TState.released => true
  | TState.memory, TState.released => true
  | TState.released, TState.erred => true
  | _, _ => false

/-- The fifteen edges named by the specification. -/
def validEdges : List (TState × TState) :=
  [(TState.released, TState.waiting), (TState.waiting, TState.released),
   (TState.waiting, TState.processing), (TState.waiting, TState.memory),
   (TState.processing, TState.released), (TState.processing, TState.memory),
   (TState.processing, TState.erred), (TState.noWorker, TState.released),
   (TState.noWorker, TState.waiting), (TState.noWorker, TState.memory),
   (TState.released, TState.forgotten), (TState.memory, TState.forgotten),
   (TState.erred, TState.released), (TState.memory, TState.released),
   (TState.released, TState.erred)]

/-- What `SchedulerState._transition` (scheduler.py:2320-2371) does with a
request, as a function of the (start, finish) pair: call the table handler,
realise the request as the compound `start → released → v`, or raise
`RuntimeError("Impossible transition ...")`. The compound branch is guarded
by the source condition `"released" not in start_finish`. -/
inductive TAction where
  | handler
  | compound
  | error
deriving DecidableEq, Repr

/-- Dispatch decision of `SchedulerState._transition` for a task whose
current state is `start` when the requested state is `finish` (the source
returns early when `start == finish`, so only `start ≠ finish` pairs reach
this decision). -/
def transitionAction (start finish : TState) : TAction :=
  if transitionsTable start finish then TAction.handler
  else if start ≠ TState.released ∧ finish ≠ TState.released then TAction.compound
  else TAction.error

/-- In the compound branch the second step's target is
`v = a_recs.get(key, finish)`: the recommendation the first step produced
for that key, defaulting to `finish` (scheduler.py:2333). -/
def compoundTarget (aRec : Option TState) (finish : TState) : TState :=
  aRec.getD finish

/-! ## stimulus_task_erred (scheduler.py:5022-5045) -/

/-- The retry decision of `Scheduler.stimulus_task_erred`, as a function of
the task's current state and its retries counter: returns the new retries
counter and the transition requested (`none` when the stimulus is ignored
because the task is not processing). -/
def stimulus_task_erred (state : TState) (retries : ℤ) : ℤ × Option TState :=
  if state ≠ TState.processing then (retries, none)
  else if retries > 0 then (retries - 1, some TState.waiting)
  else (retries, some TState.erred)

/-- Modelled from the claim's words, for comparison: the counter is
decremented first, and the task is recommended `waiting` if the (now
decremented) counter is positive, `erred` otherwise. -/
def stimulus_task_erred_claim (state : TState) (retries : ℤ) : ℤ × Option TState :=
  if state ≠ TState.processing then (retries, none)
  else if retries - 1 > 0 then (retries - 1, some TState.waiting)
  else (retries - 1, some TState.erred)

/-! ## heartbeat_interval (scheduler.py:8652-8664) -/

/-- The heartbeat interval, in seconds, desired for a cluster of `n`
workers (`heartbeat_interval` in scheduler.py). -/
def heartbeat_interval (n : ℕ) : ℚ :=
  if n ≤ 10 then 1/2
  else if n < 50 then 1
  else if n < 200 then 2
  else (n : ℚ) / 200 + 1

/-- Modelled from the claim's words, for comparison: 1 second up to and
including 50 workers, 2 seconds up to and including 200. -/
def heartbeat_interval_claim (n : ℕ) : ℚ :=
  if n ≤ 10 then 1/2
  else if n ≤ 50 then 1
  else if n ≤ 200 then 2
  else (n : ℚ) / 200 + 1

/-! ## Replica bookkeeping (scheduler.py:3563-3595)

The slice of scheduler state that `add_replica`, `remove_replica` and
`remove_all_replicas` read and write: per-task state and `who_has`,
per-worker `has_what` and `nbytes`, and the `_replicated_tasks` set. -/

structure ReplState where
  state : Key → TState
  whoHas : Key → Finset Addr
  hasWhat : Addr → Finset Key
  wNbytes : Addr → ℤ
  replicatedTasks : Finset Key
  taskNbytes : Key → ℤ
  defaultDataSize : ℤ

/-- TaskState.get_nbytes (scheduler.py:1752): the task's nbytes, or the
configured default when unknown (negative). -/
def getNbytes (S : ReplState) (t : Key) : ℤ :=
  if S.taskNbytes t ≥ 0 then S.taskNbytes t else S.defaultDataSize

/-- SchedulerState.add_replica: note that worker `w` holds a replica of
task `t`; both `t.who_has` and `w.has_what` gain the edge, `w.nbytes`
grows, and `t` joins `_replicated_tasks` when it reaches two holders. -/
def add_replica (S : ReplState) (t : Key) (w : Addr) : ReplState :=
  { S with
    wNbytes := Function.update S.wNbytes w (S.wNbytes w + getNbytes S t)
    hasWhat := Function.update S.hasWhat w (insert t (S.hasWhat w))
    whoHas := Function.update S.whoHas t (insert w (S.whoHas t))
    replicatedTasks :=
      if (insert w (S.whoHas t)).card = 2 then insert t S.replicatedTasks
      else S.replicatedTasks }

/-- SchedulerState.remove_replica: worker `w` no longer holds a replica of
task `t`; both sides of the edge are removed together. -/
def remove_replica (S : ReplState) (t : Key) (w : Addr) : ReplState :=
  { S with
    wNbytes := Function.update S.wNbytes w (S.wNbytes w - getNbytes S t)
    hasWhat := Function.update S.hasWhat w ((S.hasWhat w).erase t)
    whoHas := Function.update S.whoHas t ((S.whoHas t).erase w)
    replicatedTasks :=
      if ((S.whoHas t).erase w).card = 1 then S.replicatedTasks.erase t
      else S.replicatedTasks }

/-- SchedulerState.remove_all_replicas: remove task `t` from the
`has_what` of every holder and clear `t.who_has`. -/
def remove_all_replicas (S : ReplState) (t : Key) : ReplState :=
  { S with
    wNbytes := fun w =>
      if w ∈ S.whoHas t then S.wNbytes w - getNbytes S t else S.wNbytes w
    hasWhat := fun w =>
      if w ∈ S.whoHas t then (S.hasWhat w).erase t else S.hasWhat w
    replicatedTasks :=
      if 1 < (S.whoHas t).card then S.replicatedTasks.erase t
      else S.replicatedTasks
    whoHas := Function.update S.whoHas t ∅ }

/-- The two-sided replica edge: a worker appears in a task's `who_has`
exactly when the task appears in that worker's `has_what`. -/
def TwoSided (S : ReplState) : Prop :=
  ∀ t w, w ∈ S.whoHas t ↔ t ∈ S.hasWhat w

/-- The per-task memory/replica assertion of `validate_task_state`
(scheduler.py:8567): the state is memory exactly when `who_has` is
nonempty. -/
def MemIff (S : ReplState) : Prop :=
  ∀ t, S.state t = TState.memory ↔ (S.whoHas t).Nonempty

/-- The replica-state invariant maintained between transitions: memory ⇔
`who_has` nonempty, together with two-sided edges. -/
def ReplInv (S : ReplState) : Prop := MemIff S ∧ TwoSided S

/-- Assignment `ts.state = s` — the state slice of a transition handler. -/
def setStateRepl (S : ReplState) (t : Key) (s' : TState) : ReplState :=
  { S with state := Function.update S.state t s' }

/-- The replica/state slice of `_add_to_memory` (scheduler.py:8271 and
8305): `add_replica(ts, ws)` together with `ts.state = "memory"`, in one
handler. -/
def add_to_memory (S : ReplState) (t : Key) (w : Addr) : ReplState :=
  setStateRepl (add_replica S t w) t TState.memory

/-- The replica/state slice of `transition_memory_released`
(scheduler.py:2952-2954): `remove_all_replicas(ts)` then
`ts.state = "released"`. -/
def memory_released_repl (S : ReplState) (t : Key) : ReplState :=
  setStateRepl (remove_all_replicas S t) t TState.released

/-- The replica/state slice of `_propagate_forgotten` (scheduler.py:8324
and 8358): `ts.state = "forgotten"` then `remove_all_replicas(ts)`. -/
def propagate_forgotten_repl (S : ReplState) (t : Key) : ReplState :=
  remove_all_replicas (setStateRepl S t TState.forgotten) t

/-- The replica/state slice of dropping one replica and, when it was the
last copy, releasing the task through the cascaded `memory → released`
transition — the pattern of every unguarded `remove_replica` call site
(scheduler.py:5155-5159, 5620-5626, 5635-5640, 6306-6310): after
`remove_replica(ts, ws)`, an empty `who_has` triggers a `released`
recommendation whose handler (whose replica slice is
`memory_released_repl`) sets the state. -/
def remove_replica_release (S : ReplState) (t : Key) (w : Addr) : ReplState :=
  let S1 := remove_replica S t w
  if S1.whoHas t = ∅ then setStateRepl S1 t TState.released else S1

/-- The replica-related assertions of `validate_task_state`
(scheduler.py:8567 and 8587-8593) for one task: `who_has` is nonempty iff
the state is memory, and the task is in every holder's `has_what`. -/
def validateReplica (S : ReplState) (t : Key) : Prop :=
  ((S.whoHas t).Nonempty ↔ S.state t = TState.memory) ∧
  (∀ w ∈ S.whoHas t, t ∈ S.hasWhat w)

/-- The three-way equivalence asserted by the claim, for one task: state is
memory ⇔ `who_has` is nonempty ⇔ the task is in every `who_has` worker's
`has_what`. -/
def threeWayEquiv (S : ReplState) (t : Key) : Prop :=
  (S.state t = TState.memory ↔ (S.whoHas t).Nonempty) ∧
  ((S.whoHas t).Nonempty ↔ ∀ w ∈ S.whoHas t, t ∈ S.hasWhat w) ∧
  (S.state t = TState.memory ↔ ∀ w ∈ S.whoHas t, t ∈ S.hasWhat w)

/-- A scheduler state holding a single freshly-released task with no
replicas anywhere: exactly what the graph ingester creates. -/
def exRepl : ReplState :=
  { state := fun _ => TState.released
    whoHas := fun _ => ∅
    hasWhat := fun _ => ∅
    wNbytes := fun _ => 0
    replicatedTasks := ∅
    taskNbytes := fun _ => 100
    defaultDataSize := 1 }

/-! ## check_idle_saturated (scheduler.py:3379-3416) -/

/-- The fields of a WorkerState that `check_idle_saturated` reads. -/
structure CISWorker where
  nthreads : ℕ
  processingCount : ℕ
  occupancy : ℚ
  closed : Bool

/-- Cluster average occupancy per thread, `self._total_occupancy /
self._total_nthreads`. -/
def cisAvg (totalNthreads : ℕ) (totalOccupancy : ℚ) : ℚ :=
  totalOccupancy / (totalNthreads : ℚ)

/-- The pending-fraction metric `occ * (p - nc) / (p * nc)`. -/
def cisPending (ws : CISWorker) : ℚ :=
  ws.occupancy * ((ws.processingCount : ℚ) - (ws.nthreads : ℚ)) /
    ((ws.processingCount : ℚ) * (ws.nthreads : ℚ))

/-- SchedulerState.check_idle_saturated: update the idle dict and the
saturated set for worker `w` (whose relevant fields are `ws`), given the
cluster totals. Returns the new (idle, saturated) pair. -/
def check_idle_saturated (totalNthreads : ℕ) (totalOccupancy : ℚ)
    (idle saturated : Finset Addr) (w : Addr) (ws : CISWorker) :
    Finset Addr × Finset Addr :=
  if totalNthreads = 0 ∨ ws.closed then (idle, saturated)
  else
    let avg := cisAvg totalNthreads totalOccupancy
    if ws.processingCount < ws.nthreads ∨
        ws.occupancy < (ws.nthreads : ℚ) * avg / 2 then
      (insert w idle, saturated.erase w)
    else
      if ws.nthreads < ws.processingCount then
        if 2/5 < cisPending ws ∧ 19/10 * avg < cisPending ws then
          (idle.erase w, insert w saturated)
        else (idle.erase w, saturated.erase w)
      else (idle.erase w, saturated.erase w)

/-! ## valid_workers (scheduler.py:3453-3513) -/

/-- The slice of scheduler state that `valid_workers` reads: the connected
workers (`_workers_dv`), the running set, the host-info index (address
sets per host, after `coerce_hostname` resolution; `none` = host unknown),
and the resource index `_resources` (the addresses registered for a
resource, with the supplied quantity). -/
structure VWCtx where
  workers : Finset Addr
  running : Finset Addr
  hostAddrs : Host → Option (Finset Addr)
  resAddrs : Res → Finset Addr
  supply : Res → Addr → ℚ

/-- The three restriction fields of a task that `valid_workers` reads. -/
structure TaskRestrictions where
  workerR : Finset Addr
  hostR : Finset Host
  resourceR : List (Res × ℚ)

/-- The set `sw` built for one resource restriction: the addresses whose
supplied quantity is at least the required one (scheduler.py:3492-3495). -/
def swFor (ctx : VWCtx) (r : Res) (required : ℚ) : Finset Addr :=
  (ctx.resAddrs r).filter (fun a => required ≤ ctx.supply r a)

/-- Intersection of a list of sets, `set.intersection(*dw.values())`
(meaningful only for a nonempty list, as in the source). -/
def interList : List (Finset Addr) → Finset Addr
  | [] => ∅
  | [s] => s
  | s :: rest => s ∩ interList rest

/-- SchedulerState.valid_workers: `none` means every worker is valid. The
accumulator `s` starts unset, is set to the connected workers named by
`worker_restrictions`, is UNIONed with the host-restriction addresses
(`s |= ss`, scheduler.py:3483), is intersected with the resource sets, and
finally is restricted to the running set when some connected worker is not
running. -/
def valid_workers (ctx : VWCtx) (tr : TaskRestrictions) : Option (Finset Addr) :=
  let s0 : Option (Finset Addr) :=
    if tr.workerR.Nonempty then
      some (tr.workerR.filter (fun a => a ∈ ctx.workers))
    else none
  let s1 : Option (Finset Addr) :=
    if tr.hostR.Nonempty then
      let ss := tr.hostR.biUnion (fun h => (ctx.hostAddrs h).getD ∅)
      some (match s0 with | none => ss | some s => s ∪ ss)
    else s0
  let s2 : Option (Finset Addr) :=
    match tr.resourceR with
    | [] => s1
    | p :: ps =>
      let ww := interList ((p :: ps).map (fun q => swFor ctx q.1 q.2))
      some (match s1 with | none => ww | some s => s ∩ ww)
  match s2 with
  | none => if ctx.running.card < ctx.workers.card then some ctx.running else none
  | some s =>
    some (if ctx.running.card < ctx.workers.card then s ∩ ctx.running else s)

/-- Modelled from the claim's words, for comparison: the INTERSECTION of
the restriction-derived sets (a), (b), (c) — over whichever of the three
restriction classes are set — and `none` whenever no restriction is set. -/
def valid_workers_claim (ctx : VWCtx) (tr : TaskRestrictions) :
    Option (Finset Addr) :=
  if tr.workerR = ∅ ∧ tr.hostR = ∅ ∧ tr.resourceR = [] then none
  else
    let factors : List (Finset Addr) :=
      (if tr.workerR.Nonempty then
        [tr.workerR.filter (fun a => a ∈ ctx.workers)] else []) ++
      (if tr.hostR.Nonempty then
        [tr.hostR.biUnion (fun h => (ctx.hostAddrs h).getD ∅)] else []) ++
      (match tr.resourceR with
       | [] => []
       | p :: ps => [interList ((p :: ps).map (fun q => swFor ctx q.1 q.2))])
    some (interList factors)

/-- The behaviour `valid_workers` actually implements, written as a
one-shot formula: the worker-restriction set (a) and the host-restriction
set (b) are UNIONed, over whichever of the two is present, and the
resource set (c) is intersected with that union. -/
def vwCore (ctx : VWCtx) (tr : TaskRestrictions) : Finset Addr :=
  let a := tr.workerR.filter (fun x => x ∈ ctx.workers)
  let b := tr.hostR.biUnion (fun h => (ctx.hostAddrs h).getD ∅)
  let ab : Finset Addr :=
    if tr.workerR = ∅ then b
    else if tr.hostR = ∅ then a
    else a ∪ b
  match tr.resourceR with
  | [] => ab
  | p :: ps =>
    let c := interList ((p :: ps).map (fun q => swFor ctx q.1 q.2))
    if tr.workerR = ∅ ∧ tr.hostR = ∅ then c else ab ∩ c

/-- The running-set filtering that `valid_workers` applies on top of
`vwCore` (its last eight lines). -/
def valid_workers_amended (ctx : VWCtx) (tr : TaskRestrictions) :
    Option (Finset Addr) :=
  if tr.workerR = ∅ ∧ tr.hostR = ∅ ∧ tr.resourceR = [] then
    if ctx.running.card < ctx.workers.card then some ctx.running else none
  else
    some (if ctx.running.card < ctx.workers.card then
      vwCore ctx tr ∩ ctx.running else vwCore ctx tr)

/-- Concrete context for the C3 counterexample: two connected running
workers, worker 2 living on host 7. -/
def vwCtxEx : VWCtx :=
  { workers := {1, 2}
    running := {1, 2}
    hostAddrs := fun h => if h = 7 then some {2} else none
    resAddrs := fun _ => ∅
    supply := fun _ _ => 0 }

/-- Restrictions naming worker 1 and host 7 (which resolves to worker 2). -/
def trEx : TaskRestrictions := { workerR := {1}, hostR := {7}, resourceR := [] }

/-! ## decide_worker (scheduler.py:2602-2700 and 8460-8508) -/

/-- The slice of scheduler state that `decide_worker` and
`worker_objective` read, on top of what `valid_workers` needs.
`workersList` and `idleList` are the iteration orders of the sorted dicts
`_workers_dv` and `_idle_dv` (their key sets agree with `workers` and the
idle set). -/
structure DWState extends VWCtx where
  workersList : List Addr
  idleList : List Addr
  occupancy : Addr → ℚ
  wNbytesW : Addr → ℤ
  nthreadsW : Addr → ℕ
  nActors : Addr → ℕ
  whoHasK : Key → Finset Addr
  keyNbytes : Key → ℤ
  defaultDataSize : ℤ
  totalNthreads : ℕ
  nTasks : ℕ
  bandwidth : ℚ

/-- The fields of a task that `decide_worker` reads (restrictions feed
`valid_workers`). -/
structure DWTask where
  deps : Finset Key
  actor : Bool
  loose : Bool
  restrictions : TaskRestrictions

/-- The fields of the task's TaskGroup that `decide_worker` reads and
writes: `len(tg)`, the sizes of the groups in `tg._dependencies`,
`tg._last_worker`, `tg._last_worker_tasks_left`, and
`tg.states["released"] + tg.states["waiting"]`. -/
structure TGState where
  lenTG : ℕ
  depSizes : List ℕ
  lastWorker : Option Addr
  tasksLeft : ℤ
  releasedPlusWaiting : ℕ

/-- The `get_nbytes` of a dependency key. -/
def depNbytes (st : DWState) (k : Key) : ℤ :=
  if st.keyNbytes k ≥ 0 then st.keyNbytes k else st.defaultDataSize

/-- Lexicographic value of `worker_objective` (scheduler.py:3541-3561).
The actor tuple has `len(ws._actors)` prepended; padding the non-actor
tuple with a constant first component preserves its ordering. -/
abbrev ObjVal := ℕ ×ₗ (ℚ ×ₗ ℤ)

/-- SchedulerState.worker_objective: expected start time (occupancy per
thread plus communication time for dependencies not already on the
worker), tie-broken by the worker's stored bytes; actor tasks sort first
by the worker's actor count. -/
def worker_objective (st : DWState) (ts : DWTask) (w : Addr) : ObjVal :=
  let commBytes : ℤ := (ts.deps.filter (fun d => w ∉ st.whoHasK d)).sum (depNbytes st)
  let stackTime : ℚ := st.occupancy w / (st.nthreadsW w : ℚ)
  let startTime : ℚ := stackTime + (commBytes : ℚ) / st.bandwidth
  toLex (if ts.actor then st.nActors w else 0, toLex (startTime, st.wNbytesW w))

/-- Python's `min(iterable, key=f)`: the first element attaining the
minimal key, `none` on an empty iterable. -/
def listArgmin {α : Type} [LinearOrder α] (f : Addr → α) : List Addr → Option Addr
  | [] => none
  | w :: ws =>
    match listArgmin f ws with
    | none => some w
    | some m => if f w ≤ f m then some w else some m

/-- Python's `min` over a set (iteration order of Python sets is
arbitrary; we iterate in canonical sorted order — every theorem below
uses only that the result is a member attaining the minimum). -/
def setArgmin {α : Type} [LinearOrder α] (f : Addr → α) (s : Finset Addr) :
    Option Addr :=
  listArgmin f (s.sort (· ≤ ·))

/-- The initial candidate set of the module-level `decide_worker` helper
(scheduler.py:8484-8487): all workers for an actor task, else the holders
of the dependencies. -/
def decide_worker_candidates (st : DWState) (ts : DWTask) : Finset Addr :=
  if ts.actor then st.workersList.toFinset else ts.deps.biUnion st.whoHasK

/-- The module-level `decide_worker` helper (scheduler.py:8460-8508) when
called with `valid_workers = None`: candidates default to all workers
when empty, and the objective minimiser is returned. -/
def decide_worker_unrestricted (st : DWState) (ts : DWTask) : Option Addr :=
  setArgmin (worker_objective st ts)
    (if decide_worker_candidates st ts = ∅ then st.workersList.toFinset
     else decide_worker_candidates st ts)

/-- The candidate pool of the module-level helper when a concrete valid
set is given: candidates are intersected with it, falling back to the
whole valid set when the intersection is empty. -/
def dwRestrictedPool (st : DWState) (ts : DWTask) (valid : Finset Addr) :
    Finset Addr :=
  if decide_worker_candidates st ts ∩ valid = ∅ then valid
  else decide_worker_candidates st ts ∩ valid

/-- The module-level `decide_worker` helper when called with a concrete
valid set: pick the objective minimiser of the restricted pool; when the
pool is empty, loose restrictions retry without the valid set and strict
restrictions give up. -/
def decide_worker_restricted (st : DWState) (ts : DWTask) (valid : Finset Addr) :
    Option Addr :=
  if dwRestrictedPool st ts valid = ∅ then
    (if ts.loose then decide_worker_unrestricted st ts else none)
  else setArgmin (worker_objective st ts) (dwRestrictedPool st ts valid)

/-- The fast path of decide_worker (scheduler.py:2669-2691), for tasks
with no dependencies and no restrictions: among the idle pool (or all
workers when none is idle), pick the lowest-occupancy worker; when the
minimum occupancy is zero, round-robin by scanning from `n_tasks mod n`
for the next zero-occupancy worker; for pools of at least 20 workers,
plain round-robin indexing. -/
def decide_worker_fastpath (st : DWState) : Option Addr :=
  let pool := if st.idleList ≠ [] then st.idleList else st.workersList
  let n := pool.length
  if n < 20 then
    match listArgmin st.occupancy pool with
    | none => none
    | some ws0 =>
      if st.occupancy ws0 = 0 then
        match ((List.range n).map
            (fun i => pool.getD ((i + st.nTasks % n) % n) ws0)).find?
            (fun x => st.occupancy x = 0) with
        | some w2 => some w2
        | none => some ws0
      else some ws0
  else pool.get? (st.nTasks % n)

/-- Outcome of `SchedulerState.decide_worker`: the chosen worker (if any),
the updated `tg._last_worker` and `tg._last_worker_tasks_left`, and
whether the task was parked in `no-worker`. -/
structure DWResult where
  chosen : Option Addr
  lastWorker : Option Addr
  tasksLeft : ℤ
  parked : Bool
deriving DecidableEq, Repr

/-- The root-task branch's new-worker pick: the objective minimiser over
the idle dict (or all workers when none is idle), with the quota reset to
`math.floor((len(tg) / self._total_nthreads) * ws._nthreads)`
(scheduler.py:2647-2653). -/
def rootReset (st : DWState) (tg : TGState) (ts : DWTask) : DWResult :=
  match listArgmin (worker_objective st ts)
      (if st.idleList ≠ [] then st.idleList else st.workersList) with
  | some ws =>
    let quota : ℤ := ⌊(tg.lenTG : ℚ) / (st.totalNthreads : ℚ) * (st.nthreadsW ws : ℚ)⌋
    ⟨some ws, (if 1 < tg.releasedPlusWaiting then some ws else none),
     quota - 1, false⟩
  | none => ⟨none, tg.lastWorker, tg.tasksLeft, false⟩

/-- SchedulerState.decide_worker (scheduler.py:2602-2700): empty cluster
gives up; an empty strict valid set parks the task in `no-worker`; the
root-task heuristic co-locates large shallow groups; tasks with
dependencies or restrictions go through the module-level helper; the rest
take the fast path over the idle pool. -/
def decide_worker_state (st : DWState) (tg : TGState) (ts : DWTask) : DWResult :=
  if st.workersList = [] then ⟨none, tg.lastWorker, tg.tasksLeft, false⟩
  else
    match valid_workers st.toVWCtx ts.restrictions with
    | some v =>
      if v = ∅ ∧ ts.loose = false then ⟨none, tg.lastWorker, tg.tasksLeft, true⟩
      else ⟨decide_worker_restricted st ts v, tg.lastWorker, tg.tasksLeft, false⟩
    | none =>
      if tg.lenTG > st.totalNthreads * 2 ∧ tg.depSizes.length < 5 ∧
          tg.depSizes.sum < 5 then
        match tg.lastWorker with
        | some lw =>
          if tg.tasksLeft ≠ 0 ∧ lw ∈ st.toVWCtx.workers then
            ⟨some lw, (if 1 < tg.releasedPlusWaiting then some lw else none),
             tg.tasksLeft - 1, false⟩
          else rootReset st tg ts
        | none => rootReset st tg ts
      else if ts.deps ≠ ∅ then
        ⟨decide_worker_unrestricted st ts, tg.lastWorker, tg.tasksLeft, false⟩
      else
        ⟨decide_worker_fastpath st, tg.lastWorker, tg.tasksLeft, false⟩

/-- The quota formula as the claim states it:
`floor(group_size / total_threads) * nthreads`. -/
def claimRootQuota (lenTG totalNthreads nthreads : ℕ) : ℤ :=
  ((lenTG / totalNthreads : ℕ) : ℤ) * (nthreads : ℤ)

/-- Concrete scheduler state for the root-task quota computation: one
connected running worker (address 0) with 2 threads, 8 total threads in
the cluster. -/
def stEx5 : DWState :=
  { workers := {0}
    running := {0}
    hostAddrs := fun _ => none
    resAddrs := fun _ => ∅
    supply := fun _ _ => 0
    workersList := [0]
    idleList := []
    occupancy := fun _ => 0
    wNbytesW := fun _ => 0
    nthreadsW := fun _ => 2
    nActors := fun _ => 0
    whoHasK := fun _ => ∅
    keyNbytes := fun _ => 0
    defaultDataSize := 1000
    totalNthreads := 8
    nTasks := 0
    bandwidth := 100 }

/-- A group of 100 tasks, no group dependencies, no last worker yet. -/
def tgEx5 : TGState :=
  { lenTG := 100, depSizes := [], lastWorker := none, tasksLeft := 0,
    releasedPlusWaiting := 50 }

/-- A dependency-free unrestricted task. -/
def tsEx5 : DWTask :=
  { deps := ∅, actor := false, loose := false, restrictions := ⟨∅, ∅, []⟩ }

/-- Concrete scheduler state for the non-running-assignment scenario: two
connected workers, worker 2 not running (paused) and idle-est. -/
def stEx10 : DWState :=
  { workers := {1, 2}
    running := {1}
    hostAddrs := fun _ => none
    resAddrs := fun _ => ∅
    supply := fun _ _ => 0
    workersList := [1, 2]
    idleList := []
    occupancy := fun a => if a = 2 then 0 else 5
    wNbytesW := fun _ => 0
    nthreadsW := fun _ => 1
    nActors := fun _ => 0
    whoHasK := fun k => if k = 5 then {2} else ∅
    keyNbytes := fun _ => 0
    defaultDataSize := 1000
    totalNthreads := 2
    nTasks := 0
    bandwidth := 100 }

/-- A task loosely restricted to (paused) worker 2, whose single
dependency (key 5) is held on worker 2. -/
def tsEx10 : DWTask :=
  { deps := {5}, actor := false, loose := true, restrictions := ⟨{2}, ∅, []⟩ }

/-- A strictly unrestricted task for the same state. -/
def tsEx10s : DWTask :=
  { deps := ∅, actor := false, loose := false, restrictions := ⟨∅, ∅, []⟩ }

/-! ## Rebalance pairing (Scheduler._rebalance_find_msgs, scheduler.py:6419-6614)

The two heaps are modelled as lists kept sorted by the heap key
`(bytes_max, bytes_min, id)` — popping the head of a sorted list is
exactly popping the minimum of the heap, and the unique `id` (the worker
address here) rules out ties. The sender's `has_what` iterator is the
explicit `rest` list. -/

/-- The fields of a worker that `_rebalance_find_msgs` reads: address,
measured memory (`getattr(ws.memory, measure)`), `memory_limit`, and
`has_what` in insertion order. -/
structure RWorker where
  addr : Addr
  memUsed : ℤ
  memoryLimit : ℤ
  hasWhatL : List Key
deriving DecidableEq, Repr

/-- The rebalance tunables, as cached by `SchedulerState.__init__`:
`halfGapFrac` is `MEMORY_REBALANCE_HALF_GAP`, i.e. the configured
sender-recipient-gap already divided by two (scheduler.py:2103-2106). -/
structure RebCfg where
  halfGapFrac : ℚ
  senderMin : ℚ
  recipientMax : ℚ

/-- A sender heap entry `(snd_bytes_max, snd_bytes_min, id(ws), ws,
ts_iter)`; the iterator is the list of remaining tasks. -/
structure SEntry where
  maxB : ℤ
  minB : ℤ
  wid : Addr
  rest : List Key
deriving DecidableEq, Repr

/-- A recipient heap entry `(rec_bytes_max, rec_bytes_min, id(ws), ws)`. -/
structure REntry where
  maxB : ℤ
  minB : ℤ
  wid : Addr
deriving DecidableEq, Repr

/-- Lexicographic order of the heap key tuples. -/
def keyLe (a b : ℤ × ℤ × ℕ) : Prop :=
  a.1 < b.1 ∨ (a.1 = b.1 ∧ (a.2.1 < b.2.1 ∨ (a.2.1 = b.2.1 ∧ a.2.2 ≤ b.2.2)))

instance (a b : ℤ × ℤ × ℕ) : Decidable (keyLe a b) := by
  unfold keyLe
  infer_instance

/-- Insert a sender entry into the heap (sorted-list model). -/
def insertByS (e : SEntry) : List SEntry → List SEntry
  | [] => [e]
  | f :: fs =>
    if keyLe (e.maxB, e.minB, e.wid) (f.maxB, f.minB, f.wid) then e :: f :: fs
    else f :: insertByS e fs

/-- Insert a recipient entry into the heap (sorted-list model). -/
def insertByR (e : REntry) : List REntry → List REntry
  | [] => [e]
  | f :: fs =>
    if keyLe (e.maxB, e.minB, e.wid) (f.maxB, f.minB, f.wid) then e :: f :: fs
    else f :: insertByR e fs

/-- Heapify (initial sort) of the sender entries. -/
def heapifyS (l : List SEntry) : List SEntry := l.foldr insertByS []

/-- Heapify (initial sort) of the recipient entries. -/
def heapifyR (l : List REntry) : List REntry := l.foldr insertByR []

/-- The recipient search (scheduler.py:6554-6567): starting from the top
of the heap, stop (`none`) at the first recipient without capacity
(`nbytes + rec_bytes_max > 0` — the rest are sorted and can only be
worse); skip recipients that already hold the task, pushing them back
afterwards; return the first fit together with the rest of the heap. -/
def findRecipient (holds : Addr → Key → Bool) (nbytes : ℤ) (k : Key) :
    List REntry → Option (REntry × List REntry)
  | [] => none
  | r :: rs =>
    if nbytes + r.maxB > 0 then none
    else if holds r.wid k then
      match findRecipient holds nbytes k rs with
      | none => none
      | some (r2, rs2) => some (r2, r :: rs2)
    else some (r, rs)

/-- The `for ts in ts_iter` body for the popped top sender
(scheduler.py:6539-6612): walk the sender's remaining tasks; skip tasks
outside the allow-list, tasks whose move would push the sender below the
mean (`nbytes + snd_bytes_max > 0`), and tasks with no eligible
recipient; on a match, update both heap keys, push the sender back if it
still has bytes to lose and the recipient back if it still has bytes to
gain, and report the move; an exhausted iterator drops the sender. -/
def senderScan (holds : Addr → Key → Bool) (nbytes : Key → ℤ)
    (keyOk : Key → Bool) (sMax sMin : ℤ) (wid : Addr)
    (restSenders : List SEntry) (recips : List REntry) :
    List Key → List SEntry × List REntry × Option (Addr × Addr × Key)
  | [] => (restSenders, recips, none)
  | k :: ks =>
    if ¬ keyOk k then
      senderScan holds nbytes keyOk sMax sMin wid restSenders recips ks
    else if nbytes k + sMax > 0 then
      senderScan holds nbytes keyOk sMax sMin wid restSenders recips ks
    else
      match findRecipient holds (nbytes k) k recips with
      | none => senderScan holds nbytes keyOk sMax sMin wid restSenders recips ks
      | some (r, rs) =>
        let sMax2 := sMax + nbytes k
        let sMin2 := sMin + nbytes k
        let rMax2 := r.maxB + nbytes k
        let rMin2 := r.minB + nbytes k
        ((if sMin2 < 0 then insertByS ⟨sMax2, sMin2, wid, ks⟩ restSenders
          else restSenders),
         (if rMin2 < 0 then insertByR ⟨rMax2, rMin2, r.wid⟩ rs else rs),
         some (wid, r.wid, k))

/-- The outer `while senders and recipients` loop (scheduler.py:6535),
fuelled: each iteration pops the top sender and runs its task scan. The
fuel is chosen an upper bound of the iteration count (each iteration
consumes a sender task or drops a sender), so it never runs out. -/
def rebalLoop (holds : Addr → Key → Bool) (nbytes : Key → ℤ)
    (keyOk : Key → Bool) :
    ℕ → List SEntry → List REntry → List (Addr × Addr × Key) →
    List (Addr × Addr × Key)
  | 0, _, _, msgs => msgs
  | _ + 1, [], _, msgs => msgs
  | _ + 1, _ :: _, [], msgs => msgs
  | fuel + 1, s :: ss, r :: rs, msgs =>
    match senderScan holds nbytes keyOk s.maxB s.minB s.wid ss (r :: rs)
        s.rest with
    | (ss2, rs2, none) => rebalLoop holds nbytes keyOk fuel ss2 rs2 msgs
    | (ss2, rs2, some m) =>
      rebalLoop holds nbytes keyOk fuel ss2 rs2 (msgs ++ [m])

/-- The cluster mean `mean_memory = sum(m for _, m in memory_by_worker)
// len(memory_by_worker)` (Python floor division). -/
def rebalMean (workers : List RWorker) : ℤ :=
  Int.fdiv (workers.map RWorker.memUsed).sum (workers.length : ℤ)

/-- Sender/recipient classification of one worker
(scheduler.py:6487-6514). With a zero `memory_limit` the half-gap is 0,
the sender minimum is 0.0 and the recipient maximum is infinite; Python's
`int(...)` truncation on the nonnegative half-gap product is ⌊⌋. A worker
is a recipient only if it is not a sender (`elif`). -/
def classifyWorker (cfg : RebCfg) (mean : ℤ) (w : RWorker) :
    Option (SEntry ⊕ REntry) :=
  let halfGap : ℤ :=
    if w.memoryLimit ≠ 0 then ⌊cfg.halfGapFrac * (w.memoryLimit : ℚ)⌋ else 0
  let senderMinV : ℚ :=
    if w.memoryLimit ≠ 0 then cfg.senderMin * (w.memoryLimit : ℚ) else 0
  if w.hasWhatL ≠ [] ∧ w.memUsed ≥ mean + halfGap ∧
      (w.memUsed : ℚ) ≥ senderMinV then
    some (Sum.inl ⟨mean - w.memUsed, mean - w.memUsed + halfGap, w.addr,
      w.hasWhatL⟩)
  else if w.memUsed < mean - halfGap ∧
      (if w.memoryLimit ≠ 0 then
        (w.memUsed : ℚ) < cfg.recipientMax * (w.memoryLimit : ℚ)
      else True) then
    some (Sum.inr ⟨w.memUsed - mean, w.memUsed - mean + halfGap, w.addr⟩)
  else none

/-- The sender entries, in worker-iteration order (before heapify). -/
def rebalSenders (cfg : RebCfg) (workers : List RWorker) : List SEntry :=
  (workers.filterMap (classifyWorker cfg (rebalMean workers))).filterMap
    (fun c => match c with | Sum.inl s => some s | Sum.inr _ => none)

/-- The recipient entries, in worker-iteration order. -/
def rebalRecipients (cfg : RebCfg) (workers : List RWorker) : List REntry :=
  (workers.filterMap (classifyWorker cfg (rebalMean workers))).filterMap
    (fun c => match c with | Sum.inl _ => none | Sum.inr r => some r)

/-- Whether the worker at address `a` holds a replica of `k`
(`ts in rec_ws._has_what`). -/
def rebalHolds (workers : List RWorker) (a : Addr) (k : Key) : Bool :=
  workers.any (fun w => w.addr == a && w.hasWhatL.contains k)

/-- The key allow-list check (`keys is not None and ts.key not in keys`). -/
def rebalKeyOk (keys : Option (Finset Key)) (k : Key) : Bool :=
  match keys with
  | none => true
  | some ks => decide (k ∈ ks)

/-- Scheduler._rebalance_find_msgs: classify workers around the mean,
fast-exit when either side is empty, then pair senders (tasks in
insertion order) with recipients until neither side exceeds its
threshold. Output: `(sender, recipient, task)` triples in move order. -/
def rebalance_find_msgs (cfg : RebCfg) (keys : Option (Finset Key))
    (nbytes : Key → ℤ) (workers : List RWorker) :
    List (Addr × Addr × Key) :=
  if rebalSenders cfg workers = [] ∨ rebalRecipients cfg workers = [] then []
  else
    rebalLoop (rebalHolds workers) nbytes (rebalKeyOk keys)
      (((rebalSenders cfg workers).map (fun s => s.rest.length)).sum +
        (rebalSenders cfg workers).length + 1)
      (heapifyS (rebalSenders cfg workers))
      (heapifyR (rebalRecipients cfg workers)) []

/-- The concrete scenario of the claim: worker A (address 0) holds keys
1..6 of 200 bytes each (1200 bytes measured), worker B (address 7) holds
nothing, both with memory_limit 2000. -/
def rebWorkers : List RWorker :=
  [⟨0, 1200, 2000, [1, 2, 3, 4, 5, 6]⟩, ⟨7, 0, 2000, []⟩]

/-- Tunables of the claim: gap 0.1 (half-gap 0.05), sender_min 0.3,
recipient_max 0.6. -/
def rebCfgEx : RebCfg :=
  { halfGapFrac := 0.05, senderMin := 0.3, recipientMax := 0.6 }

/-- Every key is 200 bytes. -/
def rebNbytes : Key → ℤ := fun _ => 200

/-! # Theorems -/

/-- C1: the scheduler's transition table holds exactly the fifteen listed
(start, finish) edges; and for any task in the task table (whose state is
therefore never `forgotten`: both transitions into `forgotten` delete the
key from the table) whose state `start` differs from the requested
`finish`, when `(start, finish)` is not in the table the engine realises
the request as the compound transition through `released` — whose second
leg targets the first leg's recommendation for the key, defaulting to
`finish` — and raises an error exactly when `start == released`. -/
theorem transition_table_and_compound :
    (∀ s f, transitionsTable s f = true ↔ (s, f) ∈ validEdges) ∧
    (∀ s f, s ≠ f → s ≠ TState.forgotten → transitionsTable s f = false →
      ((transitionAction s f = TAction.error ↔ s = TState.released) ∧
       (s ≠ TState.released → transitionAction s f = TAction.compound))) ∧
    (∀ f, compoundTarget none f = f) ∧
    (∀ v f, compoundTarget (some v) f = v) := by
  refine ⟨by decide, by decide, ?_, ?_⟩
  · intro f; rfl
  · intro v f; rfl

/-- Closed instance of C1: requesting `forgotten` for a `waiting` task goes
through the compound path, and the compound default target behaves as
stated. -/
theorem transition_table_and_compound_witness :
    transitionAction TState.waiting TState.forgotten = TAction.compound ∧
    compoundTarget none TState.forgotten = TState.forgotten :=
  ⟨(transition_table_and_compound.2.1 TState.waiting TState.forgotten
      (by decide) (by decide) (by decide)).2 (by decide),
   transition_table_and_compound.2.2.1 TState.forgotten⟩

/-- C4 counterexample: for a processing task with `retries = 1` the code
checks positivity of the counter before decrementing, so it decrements to 0
and still recommends `waiting`; the claim's decrement-then-check reading
would mark the task `erred` instead. -/
theorem stimulus_task_erred_cex :
    stimulus_task_erred TState.processing 1 = (0, some TState.waiting) ∧
    stimulus_task_erred_claim TState.processing 1 = (0, some TState.erred) ∧
    stimulus_task_erred TState.processing 1 ≠
      stimulus_task_erred_claim TState.processing 1 := by
  refine ⟨rfl, rfl, ?_⟩
  decide

/-- C4 amended: when a task-erred stimulus arrives for a task in state
processing, the retries counter is checked first: if it is positive it is
decremented and the task is recommended `waiting`; only when the counter
was not positive (it is then left unchanged) is the task transitioned to
`erred`. A stimulus for a non-processing task is ignored. -/
theorem stimulus_task_erred_spec (s : TState) (r : ℤ) :
    (s ≠ TState.processing → stimulus_task_erred s r = (r, none)) ∧
    (s = TState.processing → 0 < r →
      stimulus_task_erred s r = (r - 1, some TState.waiting)) ∧
    (s = TState.processing → r ≤ 0 →
      stimulus_task_erred s r = (r, some TState.erred)) := by
  refine ⟨?_, ?_, ?_⟩
  · intro h
    simp [stimulus_task_erred, h]
  · intro hs hr
    simp [stimulus_task_erred, hs, hr]
  · intro hs hr
    have : ¬(0 : ℤ) < r := not_lt.mpr hr
    simp [stimulus_task_erred, hs, this]

/-- Closed instance of C4 amended at `retries = 1` and `retries = 0`. -/
theorem stimulus_task_erred_spec_witness :
    stimulus_task_erred TState.processing 1 = (0, some TState.waiting) ∧
    stimulus_task_erred TState.processing 0 = (0, some TState.erred) :=
  ⟨(stimulus_task_erred_spec TState.processing 1).2.1 rfl (by decide),
   (stimulus_task_erred_spec TState.processing 0).2.2 rfl (by decide)⟩

/-- C9 counterexample: at exactly 50 workers the code returns 2 seconds
(its middle branch tests `n < 50`), while the claim says 1 second for `n`
above 10 and at most 50. -/
theorem heartbeat_interval_cex :
    heartbeat_interval 50 = 2 ∧ heartbeat_interval_claim 50 = 1 ∧
    heartbeat_interval 50 ≠ heartbeat_interval_claim 50 := by
  refine ⟨by norm_num [heartbeat_interval], by norm_num [heartbeat_interval_claim], ?_⟩
  norm_num [heartbeat_interval, heartbeat_interval_claim]

/-- C9 amended: `heartbeat_interval n` returns 0.5 seconds when `n ≤ 10`,
1 second when `10 < n < 50`, 2 seconds when `50 ≤ n < 200`, and
`n/200 + 1` seconds when `n ≥ 200` (at `n = 200` that last formula also
equals 2). -/
theorem heartbeat_interval_spec (n : ℕ) :
    (n ≤ 10 → heartbeat_interval n = 1/2) ∧
    (10 < n → n < 50 → heartbeat_interval n = 1) ∧
    (50 ≤ n → n < 200 → heartbeat_interval n = 2) ∧
    (200 ≤ n → heartbeat_interval n = (n : ℚ) / 200 + 1) := by
  refine ⟨?_, ?_, ?_, ?_⟩
  · intro h; simp [heartbeat_interval, h]
  · intro h1 h2
    simp [heartbeat_interval, Nat.not_le.mpr h1, h2]
  · intro h1 h2
    have hn10 : ¬ n ≤ 10 := by omega
    have hn50 : ¬ n < 50 := by omega
    simp [heartbeat_interval, hn10, hn50, h2]
  · intro h
    have hn10 : ¬ n ≤ 10 := by omega
    have hn50 : ¬ n < 50 := by omega
    have hn200 : ¬ n < 200 := by omega
    simp [heartbeat_interval, hn10, hn50, hn200]

/-- Closed instance of C9 amended at n = 50 and n = 400. -/
theorem heartbeat_interval_spec_witness :
    heartbeat_interval 50 = 2 ∧ heartbeat_interval 400 = 3 := by
  constructor
  · exact (heartbeat_interval_spec 50).2.2.1 (by norm_num) (by norm_num)
  · have h := (heartbeat_interval_spec 400).2.2.2 (by norm_num)
    rw [h]; norm_num

/-- C2 counterexample: a freshly-released task with no replicas satisfies
every replica assertion of `validate_task_state`, yet the claim's
three-way equivalence fails for it: the third statement (membership in
every holder's `has_what`) is vacuously true while the first two are
false. -/
theorem three_way_equiv_cex :
    validateReplica exRepl 0 ∧ ¬ threeWayEquiv exRepl 0 := by
  constructor
  · constructor
    · simp [exRepl]
    · intro w hw
      simp [exRepl] at hw
  · intro h
    have h2 := h.2.1.mpr
    have : (exRepl.whoHas 0).Nonempty := by
      apply h2
      intro w hw
      simp [exRepl] at hw
    simp [exRepl] at this

/-- Each replica addition and removal updates `t.who_has` and
`w.has_what` together, so all three replica operations preserve the
two-sided edge property: neither side can hold the edge alone. -/
theorem replica_ops_preserve_two_sided (S : ReplState) (t : Key) (w : Addr)
    (h : TwoSided S) :
    TwoSided (add_replica S t w) ∧ TwoSided (remove_replica S t w) ∧
    TwoSided (remove_all_replicas S t) := by
  refine ⟨?_, ?_, ?_⟩
  · intro t' w'
    simp only [add_replica, Function.update_apply]
    by_cases ht : t' = t <;> by_cases hw : w' = w <;>
      simp [ht, hw, Finset.mem_insert, h t' w', h t w', h t' w, h t w]
  · intro t' w'
    simp only [remove_replica, Function.update_apply]
    by_cases ht : t' = t <;> by_cases hw : w' = w <;>
      simp [ht, hw, Finset.mem_erase, h t' w', h t w', h t' w, h t w]
  · intro t' w'
    simp only [remove_all_replicas, Function.update_apply]
    by_cases ht : t' = t
    · subst ht
      by_cases hw : w' ∈ S.whoHas t'
      · simp [hw]
      · simp [hw, ← h t' w']
    · by_cases hw : w' ∈ S.whoHas t
      · simp [hw, ht, Finset.mem_erase, ← h t' w']
      · simp [hw, ht, ← h t' w']

/-- Changing a task's state leaves the who_has/has_what edges untouched. -/
theorem setState_two_sided (S : ReplState) (t : Key) (s' : TState)
    (h : TwoSided S) : TwoSided (setStateRepl S t s') := h

/-- C2 amended: between transitions, for every task t: `t.state == memory
⇔ t.who_has ≠ ∅`, and the replica edge is two-sided (`w ∈ t.who_has ⇔
t ∈ w.has_what`) — the original three-way chain fails because its third
statement is vacuous for an empty `who_has`. The conjunction is
maintained inductively: every state/replica mutation pattern the code
performs preserves it — `_add_to_memory` adding the replica and setting
memory together; `transition_memory_released` clearing all replicas and
setting released; `_propagate_forgotten` setting forgotten and clearing
all replicas; `add_replica` on a task already in memory (add-keys,
update-data); `remove_replica` guarded to never destroy the last copy
(request_remove_replicas); `remove_replica` releasing the task when the
last copy is gone; and any non-memory state change on a replica-free
task. Each replica addition and removal updates both `t.who_has` and
`w.has_what` together, so neither side can hold the edge alone. -/
theorem replica_state_invariant_preserved (S : ReplState) (t : Key) (w : Addr)
    (s' : TState) (h : ReplInv S) :
    ReplInv (add_to_memory S t w) ∧
    ReplInv (memory_released_repl S t) ∧
    ReplInv (propagate_forgotten_repl S t) ∧
    (S.state t = TState.memory → ReplInv (add_replica S t w)) ∧
    (1 < (S.whoHas t).card → ReplInv (remove_replica S t w)) ∧
    ReplInv (remove_replica_release S t w) ∧
    (s' ≠ TState.memory → S.whoHas t = ∅ → ReplInv (setStateRepl S t s')) := by
  have T := replica_ops_preserve_two_sided S t w h.2
  have mem1 : MemIff (add_to_memory S t w) := by
    intro u
    simp only [add_to_memory, setStateRepl, add_replica, Function.update_apply]
    by_cases hu : u = t
    · simp [hu]
    · simp [hu, h.1 u]
  have mem2 : MemIff (memory_released_repl S t) := by
    intro u
    simp only [memory_released_repl, setStateRepl, remove_all_replicas,
      Function.update_apply]
    by_cases hu : u = t
    · simp [hu]
    · simp [hu, h.1 u]
  have mem3 : MemIff (propagate_forgotten_repl S t) := by
    intro u
    simp only [propagate_forgotten_repl, remove_all_replicas, setStateRepl,
      Function.update_apply]
    by_cases hu : u = t
    · simp [hu]
    · simp [hu, h.1 u]
  have mem4 : S.state t = TState.memory → MemIff (add_replica S t w) := by
    intro hm u
    simp only [add_replica, Function.update_apply]
    by_cases hu : u = t
    · simp [hu, hm]
    · simp [hu, h.1 u]
  have mem5 : 1 < (S.whoHas t).card → MemIff (remove_replica S t w) := by
    intro hc u
    simp only [remove_replica, Function.update_apply]
    by_cases hu : u = t
    · have h1 : (S.whoHas t).Nonempty := Finset.card_pos.mp (by omega)
      have h2 : ((S.whoHas t).erase w).Nonempty := by
        apply Finset.card_pos.mp
        by_cases hw : w ∈ S.whoHas t
        · rw [Finset.card_erase_of_mem hw]; omega
        · rw [Finset.erase_eq_of_not_mem hw]; omega
      simp [hu, h2, (h.1 t).mpr h1]
    · simp [hu, h.1 u]
  have mem6 : MemIff (remove_replica_release S t w) := by
    intro u
    unfold remove_replica_release
    by_cases hE : (remove_replica S t w).whoHas t = ∅
    · rw [if_pos hE]
      simp only [setStateRepl, Function.update_apply]
      by_cases hu : u = t
      · simp [hu, hE]
      · simp only [remove_replica, Function.update_apply] at hE ⊢
        simp [hu, h.1 u]
    · rw [if_neg hE]
      by_cases hu : u = t
      · have hne : ((S.whoHas t).erase w).Nonempty := by
          rw [Finset.nonempty_iff_ne_empty]
          intro hc
          exact hE (by simp [remove_replica, Function.update_apply, hc])
        have hsub : (S.whoHas t).Nonempty :=
          hne.mono (Finset.erase_subset w (S.whoHas t))
        simp [hu, remove_replica, Function.update_apply, hne,
          (h.1 t).mpr hsub]
      · simp [hu, remove_replica, Function.update_apply, h.1 u]
  have mem7 : s' ≠ TState.memory → S.whoHas t = ∅ →
      MemIff (setStateRepl S t s') := by
    intro hs hE u
    simp only [setStateRepl, Function.update_apply]
    by_cases hu : u = t
    · simp [hu, hs, hE]
    · simp [hu, h.1 u]
  have two6 : TwoSided (remove_replica_release S t w) := by
    unfold remove_replica_release
    by_cases hE : (remove_replica S t w).whoHas t = ∅
    · rw [if_pos hE]
      exact setState_two_sided _ _ _ T.2.1
    · rw [if_neg hE]
      exact T.2.1
  exact ⟨⟨mem1, setState_two_sided _ _ _ T.1⟩,
         ⟨mem2, setState_two_sided _ _ _ T.2.2⟩,
         ⟨mem3, (replica_ops_preserve_two_sided (setStateRepl S t
            TState.forgotten) t w (setState_two_sided _ _ _ h.2)).2.2⟩,
         fun hm => ⟨mem4 hm, T.1⟩,
         fun hc => ⟨mem5 hc, T.2.1⟩,
         ⟨mem6, two6⟩,
         fun hs hE => ⟨mem7 hs hE, setState_two_sided _ _ _ h.2⟩⟩

/-- Closed instance of C2 amended: starting from the single-released-task
state, storing the task's first replica on worker 5 (with the memory
state set alongside, as in _add_to_memory) preserves the invariant, and
so does a plain waiting-state change on the replica-free task. -/
theorem replica_state_invariant_preserved_witness :
    ReplInv (add_to_memory exRepl 0 5) ∧
    ReplInv (setStateRepl exRepl 0 TState.waiting) := by
  have h0 : ReplInv exRepl :=
    ⟨fun t => by simp [exRepl], fun t w => by simp [exRepl]⟩
  have h := replica_state_invariant_preserved exRepl 0 5 TState.waiting h0
  exact ⟨h.1, h.2.2.2.2.2.2 (by decide) (by simp [exRepl])⟩

/-- C6: after `check_idle_saturated` runs for a worker (cluster thread
count positive, worker not closed, a thread available, occupancies
nonnegative), the worker is in the idle set iff its processing count is
below its thread count or its occupancy is below `nthreads * cluster_avg /
2`; it is in the saturated set iff its processing count exceeds its thread
count and the pending metric `occ*(p-nc)/(p*nc)` exceeds both 0.4 and 1.9
times the cluster average; otherwise it is in neither set. -/
theorem check_idle_saturated_spec (totalN : ℕ) (totalOcc : ℚ)
    (idle saturated : Finset Addr) (w : Addr) (ws : CISWorker)
    (hN : 0 < totalN) (hclosed : ws.closed = false) (hnc : 0 < ws.nthreads)
    (hocc : 0 ≤ ws.occupancy) (htot : 0 ≤ totalOcc) :
    (w ∈ (check_idle_saturated totalN totalOcc idle saturated w ws).1 ↔
      (ws.processingCount < ws.nthreads ∨
        ws.occupancy < (ws.nthreads : ℚ) * cisAvg totalN totalOcc / 2)) ∧
    (w ∈ (check_idle_saturated totalN totalOcc idle saturated w ws).2 ↔
      (ws.nthreads < ws.processingCount ∧ 2/5 < cisPending ws ∧
        19/10 * cisAvg totalN totalOcc < cisPending ws)) := by
  have hN' : ¬ totalN = 0 := by omega
  have havg : 0 ≤ cisAvg totalN totalOcc :=
    div_nonneg htot (by exact_mod_cast Nat.zero_le totalN)
  -- the saturated condition excludes the idle condition
  have hexcl : (ws.nthreads < ws.processingCount ∧ 2/5 < cisPending ws ∧
      19/10 * cisAvg totalN totalOcc < cisPending ws) →
      ¬(ws.processingCount < ws.nthreads ∨
        ws.occupancy < (ws.nthreads : ℚ) * cisAvg totalN totalOcc / 2) := by
    rintro ⟨h1, h2, h3⟩ (hA | hA)
    · omega
    · have hncp : (0 : ℚ) < (ws.nthreads : ℚ) := by exact_mod_cast hnc
      have hplt : (ws.nthreads : ℚ) < (ws.processingCount : ℚ) := by exact_mod_cast h1
      have hpp : (0 : ℚ) < (ws.processingCount : ℚ) := lt_trans hncp hplt
      have hq : (0 : ℚ) < (ws.processingCount : ℚ) * (ws.nthreads : ℚ) :=
        mul_pos hpp hncp
      have h3' : 19/10 * cisAvg totalN totalOcc *
          ((ws.processingCount : ℚ) * (ws.nthreads : ℚ)) <
          ws.occupancy * ((ws.processingCount : ℚ) - (ws.nthreads : ℚ)) := by
        simp only [cisPending] at h3
        exact (lt_div_iff₀ hq).mp h3
      nlinarith [mul_lt_mul_of_pos_right hA (sub_pos.mpr hplt),
        mul_nonneg (mul_nonneg havg hncp.le)
          (by linarith : (0 : ℚ) ≤ 7/5 * (ws.processingCount : ℚ) + (ws.nthreads : ℚ) / 2)]
  by_cases hA : ws.processingCount < ws.nthreads ∨
      ws.occupancy < (ws.nthreads : ℚ) * cisAvg totalN totalOcc / 2
  · have hres : check_idle_saturated totalN totalOcc idle saturated w ws =
        (insert w idle, saturated.erase w) := by
      simp [check_idle_saturated, hN', hclosed, hA]
    rw [hres]
    exact ⟨iff_of_true (Finset.mem_insert_self w idle) hA,
           iff_of_false (Finset.not_mem_erase w saturated) (fun hB => hexcl hB hA)⟩
  · by_cases hB : ws.nthreads < ws.processingCount ∧ 2/5 < cisPending ws ∧
        19/10 * cisAvg totalN totalOcc < cisPending ws
    · have hres : check_idle_saturated totalN totalOcc idle saturated w ws =
          (idle.erase w, insert w saturated) := by
        simp [check_idle_saturated, hN', hclosed, hA, hB.1, hB.2.1, hB.2.2]
      rw [hres]
      exact ⟨iff_of_false (Finset.not_mem_erase w idle) hA,
             iff_of_true (Finset.mem_insert_self w saturated) hB⟩
    · have hres : check_idle_saturated totalN totalOcc idle saturated w ws =
          (idle.erase w, saturated.erase w) := by
        by_cases h1 : ws.nthreads < ws.processingCount
        · have hC : ¬(2/5 < cisPending ws ∧
              19/10 * cisAvg totalN totalOcc < cisPending ws) :=
            fun hc => hB ⟨h1, hc.1, hc.2⟩
          simp [check_idle_saturated, hN', hclosed, hA, h1, hC]
        · simp [check_idle_saturated, hN', hclosed, hA, h1]
      rw [hres]
      exact ⟨iff_of_false (Finset.not_mem_erase w idle) hA,
             iff_of_false (Finset.not_mem_erase w saturated) hB⟩

/-- Closed instance of C6: a worker with one running task on two threads
is classified idle and not saturated. -/
theorem check_idle_saturated_spec_witness :
    3 ∈ (check_idle_saturated 4 0 ∅ ∅ 3 ⟨2, 1, 0, false⟩).1 ∧
    3 ∉ (check_idle_saturated 4 0 ∅ ∅ 3 ⟨2, 1, 0, false⟩).2 := by
  have h := check_idle_saturated_spec 4 0 ∅ ∅ 3 ⟨2, 1, 0, false⟩
    (by decide) rfl (by decide) le_rfl le_rfl
  refine ⟨h.1.mpr (Or.inl (by decide)), fun hmem => ?_⟩
  exact absurd (h.2.mp hmem).1 (by decide)

/-- C3 counterexample: with `worker_restrictions = {1}` and a host
restriction resolving to worker 2 (both workers running), the code
returns the UNION `{1, 2}`, while the claim's intersection of (a) and (b)
is empty. -/
theorem valid_workers_cex :
    valid_workers vwCtxEx trEx = some ({1, 2} : Finset Addr) ∧
    valid_workers_claim vwCtxEx trEx = some (∅ : Finset Addr) ∧
    valid_workers vwCtxEx trEx ≠ valid_workers_claim vwCtxEx trEx := by
  refine ⟨?_, ?_, ?_⟩ <;> decide

/-- C3 amended: `valid_workers` combines the worker-restriction set (a)
and the host-restriction set (b) by UNION, intersects the result with the
resource-restriction set (c), and — when at least one connected worker is
not running — intersects with the running set; a task with none of the
three constraints gets `none` ("any worker") only when every connected
worker is running, and a copy of the running set otherwise. -/
theorem valid_workers_spec (ctx : VWCtx) (tr : TaskRestrictions) :
    valid_workers ctx tr = valid_workers_amended ctx tr := by
  rcases hrl : tr.resourceR with _ | ⟨p, ps⟩ <;>
    by_cases hw : tr.workerR = ∅ <;> by_cases hh : tr.hostR = ∅ <;>
      simp [valid_workers, valid_workers_amended, vwCore, hrl, hw, hh,
        Finset.nonempty_iff_ne_empty]

/-- Python's `min` returns an element of the iterable. -/
theorem listArgmin_mem {α : Type} [LinearOrder α] (f : Addr → α) :
    ∀ (l : List Addr) (w : Addr), listArgmin f l = some w → w ∈ l := by
  intro l
  induction l with
  | nil => intro w h; exact absurd h (by simp [listArgmin])
  | cons a as ih =>
    intro w h
    simp only [listArgmin] at h
    cases hm : listArgmin f as with
    | none =>
      rw [hm] at h
      have ha : a = w := Option.some_inj.mp h
      exact ha ▸ List.mem_cons_self a as
    | some m =>
      rw [hm] at h
      dsimp only at h
      by_cases hle : f a ≤ f m
      · rw [if_pos hle] at h
        have ha : a = w := Option.some_inj.mp h
        exact ha ▸ List.mem_cons_self a as
      · rw [if_neg hle] at h
        have hmw : m = w := Option.some_inj.mp h
        exact List.mem_cons_of_mem a (hmw ▸ ih m hm)

/-- Python's `min` over a set returns a member. -/
theorem setArgmin_mem {α : Type} [LinearOrder α] (f : Addr → α) (s : Finset Addr)
    (w : Addr) (h : setArgmin f s = some w) : w ∈ s :=
  (Finset.mem_sort _).mp (listArgmin_mem f _ w h)

/-- Indexing with a default yields a member or the default. -/
theorem list_getD_mem_or (l : List Addr) (i : ℕ) (d : Addr) :
    l.getD i d ∈ l ∨ l.getD i d = d := by
  induction l generalizing i with
  | nil => right; simp
  | cons a as ih =>
    cases i with
    | zero => left; rw [List.getD_cons_zero]; exact List.mem_cons_self a as
    | succ j =>
      rw [List.getD_cons_succ]
      rcases ih j with h | h
      · exact Or.inl (List.mem_cons_of_mem a h)
      · exact Or.inr h

/-- The intersection of a nonempty list of sets is contained in its head. -/
theorem interList_subset_head (s : Finset Addr) (rest : List (Finset Addr)) :
    interList (s :: rest) ⊆ s := by
  cases rest with
  | nil => exact Finset.Subset.refl s
  | cons t ts => exact Finset.inter_subset_left

/-- Every address that `vwCore` can produce is a connected worker,
provided the host-info and resource indexes only name connected workers. -/
theorem vwCore_subset_workers (ctx : VWCtx) (tr : TaskRestrictions)
    (hhost : ∀ h s, ctx.hostAddrs h = some s → s ⊆ ctx.workers)
    (hres : ∀ r, ctx.resAddrs r ⊆ ctx.workers) :
    vwCore ctx tr ⊆ ctx.workers := by
  have ha : ∀ x ∈ tr.workerR.filter (fun x => x ∈ ctx.workers), x ∈ ctx.workers :=
    fun x hx => (Finset.mem_filter.mp hx).2
  have hb : ∀ x ∈ tr.hostR.biUnion (fun h => (ctx.hostAddrs h).getD ∅),
      x ∈ ctx.workers := by
    intro x hx
    rcases Finset.mem_biUnion.mp hx with ⟨h, hmem, hxh⟩
    rcases hh : ctx.hostAddrs h with _ | s
    · rw [hh] at hxh; simp at hxh
    · rw [hh] at hxh; exact hhost h s hh hxh
  intro x hx
  rcases hr : tr.resourceR with _ | ⟨p, ps⟩ <;> simp only [vwCore, hr] at hx
  · split_ifs at hx
    · exact hb x hx
    · exact ha x hx
    · rcases Finset.mem_union.mp hx with h | h
      · exact ha x h
      · exact hb x h
  · have hc : ∀ y ∈ interList (((p :: ps) : List (Res × ℚ)).map
        (fun q => swFor ctx q.1 q.2)), y ∈ ctx.workers := by
      intro y hy
      have hy1 : y ∈ swFor ctx p.1 p.2 := by
        have hsub := interList_subset_head (swFor ctx p.1 p.2)
          (ps.map (fun q => swFor ctx q.1 q.2))
        exact hsub (by simpa using hy)
      exact hres p.1 (Finset.mem_filter.mp hy1).1
    split_ifs at hx
    · exact hc x hx
    · exact hc x (Finset.mem_inter.mp hx).2
    · exact hc x (Finset.mem_inter.mp hx).2
    · exact hc x (Finset.mem_inter.mp hx).2

/-- A concrete (`some`) result of `valid_workers` only names running
workers, given the index-coherence invariants. -/
theorem valid_workers_some_subset (ctx : VWCtx) (tr : TaskRestrictions)
    (hrun : ctx.running ⊆ ctx.workers)
    (hhost : ∀ h s, ctx.hostAddrs h = some s → s ⊆ ctx.workers)
    (hres : ∀ r, ctx.resAddrs r ⊆ ctx.workers) (v : Finset Addr)
    (hv : valid_workers ctx tr = some v) : v ⊆ ctx.running := by
  rw [valid_workers_spec] at hv
  unfold valid_workers_amended at hv
  by_cases hempty : tr.workerR = ∅ ∧ tr.hostR = ∅ ∧ tr.resourceR = []
  · rw [if_pos hempty] at hv
    by_cases hlt : ctx.running.card < ctx.workers.card
    · rw [if_pos hlt] at hv
      injection hv with hv
      exact hv ▸ Finset.Subset.refl _
    · rw [if_neg hlt] at hv; cases hv
  · rw [if_neg hempty] at hv
    injection hv with hv
    by_cases hlt : ctx.running.card < ctx.workers.card
    · rw [if_pos hlt] at hv
      exact hv ▸ Finset.inter_subset_right
    · rw [if_neg hlt] at hv
      have heq : ctx.running = ctx.workers :=
        Finset.eq_of_subset_of_card_le hrun (le_of_not_lt hlt)
      rw [heq]
      exact hv ▸ vwCore_subset_workers ctx tr hhost hres

/-- The function `valid_workers` answers `none` only when every
connected worker is running. -/
theorem valid_workers_none_all_running (ctx : VWCtx) (tr : TaskRestrictions)
    (hrun : ctx.running ⊆ ctx.workers)
    (hnone : valid_workers ctx tr = none) : ctx.running = ctx.workers := by
  rw [valid_workers_spec] at hnone
  unfold valid_workers_amended at hnone
  by_cases hempty : tr.workerR = ∅ ∧ tr.hostR = ∅ ∧ tr.resourceR = []
  · rw [if_pos hempty] at hnone
    by_cases hlt : ctx.running.card < ctx.workers.card
    · rw [if_pos hlt] at hnone; cases hnone
    · exact Finset.eq_of_subset_of_card_le hrun (le_of_not_lt hlt)
  · rw [if_neg hempty] at hnone; cases hnone

/-- The initial candidate set of the module-level helper only names
connected workers. -/
theorem decide_worker_candidates_subset (st : DWState) (ts : DWTask)
    (hco : st.workersList.toFinset = st.toVWCtx.workers)
    (hwho : ∀ k, st.whoHasK k ⊆ st.toVWCtx.workers) :
    decide_worker_candidates st ts ⊆ st.toVWCtx.workers := by
  unfold decide_worker_candidates
  split_ifs
  · rw [hco]
  · intro x hx
    rcases Finset.mem_biUnion.mp hx with ⟨k, _, hxk⟩
    exact hwho k hxk

/-- The unrestricted helper only picks connected workers. -/
theorem decide_worker_unrestricted_mem (st : DWState) (ts : DWTask) (w : Addr)
    (hco : st.workersList.toFinset = st.toVWCtx.workers)
    (hwho : ∀ k, st.whoHasK k ⊆ st.toVWCtx.workers)
    (h : decide_worker_unrestricted st ts = some w) :
    w ∈ st.toVWCtx.workers := by
  unfold decide_worker_unrestricted at h
  have hmem := setArgmin_mem _ _ _ h
  by_cases hc : decide_worker_candidates st ts = ∅
  · rw [if_pos hc] at hmem; rw [← hco]; exact hmem
  · rw [if_neg hc] at hmem
    exact decide_worker_candidates_subset st ts hco hwho hmem

/-- The fast path only picks from the idle pool or the worker list. -/
theorem decide_worker_fastpath_mem (st : DWState) (w : Addr)
    (h : decide_worker_fastpath st = some w) :
    w ∈ st.idleList ∨ w ∈ st.workersList := by
  unfold decide_worker_fastpath at h
  have hpool : ∀ x, x ∈ (if st.idleList ≠ [] then st.idleList else st.workersList) →
      x ∈ st.idleList ∨ x ∈ st.workersList := by
    intro x hx
    by_cases hi : st.idleList ≠ []
    · rw [if_pos hi] at hx; exact Or.inl hx
    · rw [if_neg hi] at hx; exact Or.inr hx
  simp only at h
  by_cases hlen : (if st.idleList ≠ [] then st.idleList else st.workersList).length < 20
  · rw [if_pos hlen] at h
    cases ha : listArgmin st.occupancy
        (if st.idleList ≠ [] then st.idleList else st.workersList) with
    | none => rw [ha] at h; cases h
    | some ws0 =>
      rw [ha] at h
      have hws0 := listArgmin_mem st.occupancy _ ws0 ha
      simp only at h
      by_cases hz : st.occupancy ws0 = 0
      · rw [if_pos hz] at h
        cases hf : ((List.range (if st.idleList ≠ [] then st.idleList
            else st.workersList).length).map
            (fun i => (if st.idleList ≠ [] then st.idleList
              else st.workersList).getD
              ((i + st.nTasks % (if st.idleList ≠ [] then st.idleList
                else st.workersList).length) %
                (if st.idleList ≠ [] then st.idleList
                  else st.workersList).length) ws0)).find?
            (fun x => decide (st.occupancy x = 0)) with
        | none =>
          rw [hf] at h
          injection h with h
          exact hpool w (h ▸ hws0)
        | some w2 =>
          rw [hf] at h
          have hww : w2 = w := Option.some_inj.mp h
          have hmem := List.mem_of_find?_eq_some hf
          rcases List.mem_map.mp hmem with ⟨i, _, hi⟩
          rcases list_getD_mem_or (if st.idleList ≠ [] then st.idleList
              else st.workersList) _ ws0 with hg | hg
          · exact hpool w (hww ▸ hi ▸ hg)
          · have hws2 : w2 = ws0 := hi ▸ hg
            exact hpool w (hww ▸ hws2.symm ▸ hws0)
      · rw [if_neg hz] at h
        injection h with h
        exact hpool w (h ▸ hws0)
  · rw [if_neg hlen] at h
    exact hpool w (List.get?_mem h)

/-- The root-reset pick is a member of the idle pool or the worker list. -/
theorem rootReset_mem (st : DWState) (tg : TGState) (ts : DWTask) (w : Addr)
    (h : (rootReset st tg ts).chosen = some w) :
    w ∈ st.idleList ∨ w ∈ st.workersList := by
  unfold rootReset at h
  cases ha : listArgmin (worker_objective st ts)
      (if st.idleList ≠ [] then st.idleList else st.workersList) with
  | none => rw [ha] at h; cases h
  | some ws =>
    rw [ha] at h
    have hws : ws = w := by
      have h2 : (some ws : Option Addr) = some w := h
      exact Option.some_inj.mp h2
    have hmem := listArgmin_mem (worker_objective st ts) _ ws ha
    by_cases hi : st.idleList ≠ []
    · rw [if_pos hi] at hmem; exact Or.inl (hws ▸ hmem)
    · rw [if_neg hi] at hmem; exact Or.inr (hws ▸ hmem)

/-- C10 counterexample: worker 2 is connected but paused (not running),
and a task LOOSELY restricted to worker 2 is assigned to it anyway —
`valid_workers` comes back empty after the running filter, so the loose
fallback re-runs with no valid set and picks the less-occupied paused
worker. -/
theorem decide_worker_nonrunning_cex :
    (decide_worker_state stEx10 tgEx5 tsEx10).chosen = some 2 ∧
    (2 : Addr) ∉ stEx10.toVWCtx.running := by
  constructor
  · have hvw : valid_workers stEx10.toVWCtx tsEx10.restrictions = some ∅ := by
      decide
    unfold decide_worker_state
    rw [if_neg (by decide : ¬stEx10.workersList = []), hvw]
    dsimp only
    rw [if_neg (by decide : ¬((∅ : Finset Addr) = ∅ ∧ tsEx10.loose = false))]
    dsimp only
    unfold decide_worker_restricted
    rw [if_pos (by decide : dwRestrictedPool stEx10 tsEx10 ∅ = ∅)]
    rw [if_pos (by decide : tsEx10.loose = true)]
    unfold decide_worker_unrestricted
    rw [if_neg (by decide : ¬decide_worker_candidates stEx10 tsEx10 = ∅)]
    rw [show decide_worker_candidates stEx10 tsEx10 = {2} from by decide]
    unfold setArgmin
    rw [Finset.sort_singleton]
    rfl
  · decide

/-- C10 amended: whenever at least one connected worker is not running,
`valid_workers` restricts its result to running workers (a copy of the
running set for an unrestricted task, the restriction sets intersected
with the running set otherwise), so `decide_worker` never assigns a task
WITHOUT loose restrictions to a worker that is not running; a loose task
whose valid set comes back empty is retried with no valid set and can
land on any connected worker, running or not. -/
theorem decide_worker_only_running (st : DWState) (tg : TGState) (ts : DWTask)
    (hco : st.workersList.toFinset = st.toVWCtx.workers)
    (hidle : st.idleList.toFinset ⊆ st.toVWCtx.workers)
    (hrun : st.toVWCtx.running ⊆ st.toVWCtx.workers)
    (hhost : ∀ h s, st.toVWCtx.hostAddrs h = some s → s ⊆ st.toVWCtx.workers)
    (hres : ∀ r, st.toVWCtx.resAddrs r ⊆ st.toVWCtx.workers)
    (hwho : ∀ k, st.whoHasK k ⊆ st.toVWCtx.workers)
    (hloose : ts.loose = false) (w : Addr)
    (hch : (decide_worker_state st tg ts).chosen = some w) :
    w ∈ st.toVWCtx.running := by
  unfold decide_worker_state at hch
  by_cases hwl : st.workersList = []
  · rw [if_pos hwl] at hch; cases hch
  rw [if_neg hwl] at hch
  cases hvw : valid_workers st.toVWCtx ts.restrictions with
  | some v =>
    rw [hvw] at hch
    dsimp only at hch
    have hvsub : v ⊆ st.toVWCtx.running :=
      valid_workers_some_subset _ _ hrun hhost hres v hvw
    by_cases hpark : v = ∅ ∧ ts.loose = false
    · rw [if_pos hpark] at hch
      dsimp only at hch
      cases hch
    · rw [if_neg hpark] at hch
      dsimp only at hch
      unfold decide_worker_restricted at hch
      by_cases hpo : dwRestrictedPool st ts v = ∅
      · rw [if_pos hpo, hloose] at hch
        cases hch
      · rw [if_neg hpo] at hch
        have hmem := setArgmin_mem _ _ _ hch
        have hsub : dwRestrictedPool st ts v ⊆ v := by
          unfold dwRestrictedPool
          split_ifs
          · exact Finset.Subset.refl v
          · exact Finset.inter_subset_right
        exact hvsub (hsub hmem)
  | none =>
    rw [hvw] at hch
    dsimp only at hch
    have heq : st.toVWCtx.running = st.toVWCtx.workers :=
      valid_workers_none_all_running _ _ hrun hvw
    rw [heq]
    by_cases hroot : tg.lenTG > st.totalNthreads * 2 ∧ tg.depSizes.length < 5 ∧
        tg.depSizes.sum < 5
    · rw [if_pos hroot] at hch
      have hfromPool : w ∈ st.idleList ∨ w ∈ st.workersList →
          w ∈ st.toVWCtx.workers := by
        rintro (h | h)
        · exact hidle (List.mem_toFinset.mpr h)
        · rw [← hco]; exact List.mem_toFinset.mpr h
      cases hlw : tg.lastWorker with
      | some lw =>
        rw [hlw] at hch
        dsimp only at hch
        by_cases hkeep : tg.tasksLeft ≠ 0 ∧ lw ∈ st.toVWCtx.workers
        · rw [if_pos hkeep] at hch
          dsimp only at hch
          have hlww : lw = w := Option.some_inj.mp hch
          exact hlww ▸ hkeep.2
        · rw [if_neg hkeep] at hch
          exact hfromPool (rootReset_mem st tg ts w hch)
      | none =>
        rw [hlw] at hch
        dsimp only at hch
        exact hfromPool (rootReset_mem st tg ts w hch)
    · rw [if_neg hroot] at hch
      by_cases hdeps : ts.deps ≠ ∅
      · rw [if_pos hdeps] at hch
        dsimp only at hch
        exact decide_worker_unrestricted_mem st ts w hco hwho hch
      · rw [if_neg hdeps] at hch
        dsimp only at hch
        rcases decide_worker_fastpath_mem st w hch with h | h
        · exact hidle (List.mem_toFinset.mpr h)
        · rw [← hco]; exact List.mem_toFinset.mpr h

/-- Closed instance of C10 amended: in the paused-worker state, a task
with no loose restrictions lands on running worker 1. -/
theorem decide_worker_only_running_witness :
    (1 : Addr) ∈ stEx10.toVWCtx.running := by
  have hch : (decide_worker_state stEx10 tgEx5 tsEx10s).chosen = some 1 := by
    have hvw : valid_workers stEx10.toVWCtx tsEx10s.restrictions =
        some {1} := by decide
    unfold decide_worker_state
    rw [if_neg (by decide : ¬stEx10.workersList = []), hvw]
    dsimp only
    rw [if_neg (by decide : ¬(({1} : Finset Addr) = ∅ ∧ tsEx10s.loose = false))]
    dsimp only
    unfold decide_worker_restricted
    rw [if_neg (by decide : ¬dwRestrictedPool stEx10 tsEx10s {1} = ∅)]
    rw [show dwRestrictedPool stEx10 tsEx10s {1} = {1} from by decide]
    unfold setArgmin
    rw [Finset.sort_singleton]
    rfl
  exact decide_worker_only_running stEx10 tgEx5 tsEx10s (by decide) (by decide)
    (by decide) (fun h s hs => Option.noConfusion hs)
    (fun r => Finset.empty_subset _)
    (fun k => by
      show (if k = 5 then ({2} : Finset Addr) else ∅) ⊆ stEx10.toVWCtx.workers
      split_ifs
      · decide
      · exact Finset.empty_subset _) rfl 1 hch

/-- C5 counterexample: a group of 100 tasks on a cluster of 8 total
threads, new worker with 2 threads: the code computes the quota as
`floor((100 / 8) * 2) = 25` (then stores 24 after the decrement for the
task just placed), while the claim formula `floor(100 / 8) * 2 = 24`
would have stored 23. -/
theorem decide_worker_root_cex :
    (decide_worker_state stEx5 tgEx5 tsEx5).tasksLeft = 24 ∧
    claimRootQuota 100 8 2 - 1 = 23 ∧ (24 : ℤ) ≠ 23 := by
  refine ⟨?_, by decide, by decide⟩
  have hvw : valid_workers stEx5.toVWCtx tsEx5.restrictions = none := by decide
  unfold decide_worker_state
  rw [if_neg (by decide : ¬stEx5.workersList = []), hvw]
  dsimp only
  rw [if_pos (by decide : tgEx5.lenTG > stEx5.totalNthreads * 2 ∧
    tgEx5.depSizes.length < 5 ∧ tgEx5.depSizes.sum < 5)]
  rw [show tgEx5.lastWorker = none from rfl]
  dsimp only
  unfold rootReset
  rw [show listArgmin (worker_objective stEx5 tsEx5)
      (if stEx5.idleList ≠ [] then stEx5.idleList else stEx5.workersList) =
      some 0 from by decide]
  dsimp only
  norm_num [tgEx5, stEx5]

/-- C5 amended: in decide_worker, for a task whose `valid_workers` is
`None` and whose group has strictly more tasks than twice the cluster's
total thread count, fewer than 5 group dependencies and group
dependencies contributing fewer than 5 tasks in total: the task is placed
on the group's last assigned worker while that worker is known and its
remaining quota is nonzero; otherwise a new least-loaded worker (by
`worker_objective`, over the idle workers or all of them) is chosen and
the quota is reset to `floor((group_size / total_threads) * nthreads)` of
the chosen worker — the floor is taken AFTER multiplying by the thread
count, not before — and the stored counter is then decremented for the
task just placed. -/
theorem decide_worker_root_spec (st : DWState) (tg : TGState) (ts : DWTask)
    (hwl : st.workersList ≠ [])
    (hvw : valid_workers st.toVWCtx ts.restrictions = none)
    (hbig : tg.lenTG > st.totalNthreads * 2)
    (hdl : tg.depSizes.length < 5) (hds : tg.depSizes.sum < 5) :
    (∀ lw, tg.lastWorker = some lw → tg.tasksLeft ≠ 0 →
      lw ∈ st.toVWCtx.workers →
      decide_worker_state st tg ts =
        ⟨some lw, (if 1 < tg.releasedPlusWaiting then some lw else none),
         tg.tasksLeft - 1, false⟩) ∧
    ((tg.lastWorker = none ∨ tg.tasksLeft = 0 ∨
        (∀ lw, tg.lastWorker = some lw → lw ∉ st.toVWCtx.workers)) →
      ∀ ws, listArgmin (worker_objective st ts)
          (if st.idleList ≠ [] then st.idleList else st.workersList) = some ws →
        decide_worker_state st tg ts =
          ⟨some ws, (if 1 < tg.releasedPlusWaiting then some ws else none),
           ⌊(tg.lenTG : ℚ) / (st.totalNthreads : ℚ) * (st.nthreadsW ws : ℚ)⌋ - 1,
           false⟩) := by
  have hrootchain : decide_worker_state st tg ts =
      (match tg.lastWorker with
       | some lw =>
         if tg.tasksLeft ≠ 0 ∧ lw ∈ st.toVWCtx.workers then
           (⟨some lw, (if 1 < tg.releasedPlusWaiting then some lw else none),
             tg.tasksLeft - 1, false⟩ : DWResult)
         else rootReset st tg ts
       | none => rootReset st tg ts) := by
    unfold decide_worker_state
    rw [if_neg hwl, hvw]
    exact if_pos ⟨hbig, hdl, hds⟩
  constructor
  · intro lw hlw h1 h2
    rw [hrootchain, hlw]
    dsimp only
    exact if_pos ⟨h1, h2⟩
  · intro htrig ws hws
    have hreset : rootReset st tg ts =
        ⟨some ws, (if 1 < tg.releasedPlusWaiting then some ws else none),
         ⌊(tg.lenTG : ℚ) / (st.totalNthreads : ℚ) * (st.nthreadsW ws : ℚ)⌋ - 1,
         false⟩ := by
      unfold rootReset
      rw [hws]
    rw [hrootchain]
    cases hlw : tg.lastWorker with
    | none =>
      dsimp only
      exact hreset
    | some lw =>
      have hnk : ¬(tg.tasksLeft ≠ 0 ∧ lw ∈ st.toVWCtx.workers) := by
        rcases htrig with h | h | h
        · rw [hlw] at h; cases h
        · exact fun hc => hc.1 h
        · exact fun hc => h lw hlw hc.2
      dsimp only
      rw [if_neg hnk]
      exact hreset

/-- Closed instance of C5 amended: in the concrete 100-task/8-thread
state the reset path stores quota 25 minus 1 for the placed task. -/
theorem decide_worker_root_spec_witness :
    decide_worker_state stEx5 tgEx5 tsEx5 =
      ⟨some 0, some 0, 24, false⟩ := by
  have h := (decide_worker_root_spec stEx5 tgEx5 tsEx5 (by decide) (by decide)
    (by decide) (by decide) (by decide)).2 (Or.inl rfl) 0 (by decide)
  rw [h]
  norm_num [tgEx5, stEx5]

/-- The cluster mean of the concrete rebalance scenario: `(1200 + 0) // 2`. -/
theorem rebalMean_concrete : rebalMean rebWorkers = 600 := by decide

/-- Worker A classifies as a sender: 1200 ≥ 600 + 100 and 1200 ≥ 0.3·2000. -/
theorem classify_A :
    classifyWorker rebCfgEx 600 ⟨0, 1200, 2000, [1, 2, 3, 4, 5, 6]⟩ =
      some (Sum.inl ⟨-600, -500, 0, [1, 2, 3, 4, 5, 6]⟩) := by
  unfold classifyWorker
  norm_num [rebCfgEx]
  exact fun h => absurd h (by simp)

/-- Worker B classifies as a recipient: 0 < 600 − 100 and 0 < 0.6·2000. -/
theorem classify_B :
    classifyWorker rebCfgEx 600 ⟨7, 0, 2000, []⟩ =
      some (Sum.inr ⟨-600, -500, 7⟩) := by
  unfold classifyWorker
  norm_num [rebCfgEx]

/-- The concrete sender list. -/
theorem rebalSenders_concrete :
    rebalSenders rebCfgEx rebWorkers =
      [⟨-600, -500, 0, [1, 2, 3, 4, 5, 6]⟩] := by
  unfold rebalSenders
  rw [rebalMean_concrete]
  simp [rebWorkers, classify_A, classify_B]

/-- The concrete recipient list. -/
theorem rebalRecipients_concrete :
    rebalRecipients rebCfgEx rebWorkers = [⟨-600, -500, 7⟩] := by
  unfold rebalRecipients
  rw [rebalMean_concrete]
  simp [rebWorkers, classify_A, classify_B]

/-- C7 counterexample: on the claim's exact input the pairing algorithm
produces three moves, not two — after sending k1 and k2 the sender's
remaining surplus is 200 bytes and the overshoot check
`nbytes + snd_bytes_max > 0` is strict, so k3 (which brings the sender
exactly to the mean) is still sent. -/
theorem rebalance_two_moves_cex :
    rebalance_find_msgs rebCfgEx none rebNbytes rebWorkers ≠
      [(0, 7, 1), (0, 7, 2)] ∧
    (rebalance_find_msgs rebCfgEx none rebNbytes rebWorkers).length = 3 := by
  have h : rebalance_find_msgs rebCfgEx none rebNbytes rebWorkers =
      [(0, 7, 1), (0, 7, 2), (0, 7, 3)] := by
    unfold rebalance_find_msgs
    rw [rebalSenders_concrete, rebalRecipients_concrete]
    rw [if_neg (by simp)]
    decide
  rw [h]
  exact ⟨by decide, rfl⟩

/-- C7 amended: on the concrete input (A holds k1..k6 of 200 bytes each,
1200 bytes measured; B empty; both limits 2000; sender_min 0.3,
recipient_max 0.6, gap 0.1) the rebalance pairing outputs exactly THREE
moves, sending the three least-recently-inserted keys k1, k2, k3 from A
to B: the strict `> 0` overshoot check allows the move that lands the
sender exactly on the 600-byte mean. -/
theorem rebalance_three_moves :
    rebalance_find_msgs rebCfgEx none rebNbytes rebWorkers =
      [(0, 7, 1), (0, 7, 2), (0, 7, 3)] := by
  unfold rebalance_find_msgs
  rw [rebalSenders_concrete, rebalRecipients_concrete]
  rw [if_neg (by simp)]
  decide

end Sched
